import Mathlib

/-!
Verification of the rhizome reactive-resource engine.

This file gives a shallow embedding of the engine found in the repository:

* `src/src/resource.ts` (class `Resource`): statuses, the `evaluate` dispatch,
  `createEvaluationPromise` (the evaluation cycle), `evaluateDependencies`,
  `markStale` and `destroy`.
* `src/src/resource-node.ts` (class `ResourceNode`): the `#createValuePromise`
  restart-on-stale loop with its `#continuousEvaluationCount` warning counter.
* `src/unnamed/part_005` (revised class `Resource`): `invalidate` with the
  `dependentsInvalidatedWhen` option and the deferred propagation performed in
  the `finally` block of `createEvaluationPromise`.

Conventions of the embedding:

* JavaScript string statuses become inductive types with the same names.
* Promises are modelled by their settled content; a promise that can never
  settle (the `new Promise(async ...)` executor of `createEvaluationPromise`
  throwing synchronously before any `resolve`/`reject` call) is modelled by
  the explicit `PromiseVal.pending` marker and the `hang` outcome.
* The engine is single-threaded between `await` points, so each synchronous
  section is one atomic step of the model.  The interference-free model
  `evaluate` below runs a whole cycle without external status writes; races
  during the evaluator suspension are modelled separately by `runCycle`.
* A node's dependencies are evaluated through `Promise.allSettled`; the
  settled outcomes of the dependency promises are supplied to the model as an
  oracle list `List (Nat × Except EvalError V)` in key order, which is exactly
  the data the `evaluateDependencies` loop consumes.
* Dependency keys and teardown-hook identities are `Nat`; evaluator values
  have type `A` and dependency values type `V`.
-/

/-- Statuses of `Resource` in `src/src/resource.ts` (`ResourceStatus` in
`resource.types.ts`): `"unevaluated" | "evaluating" | "evaluated" | "stale" |
"errored" | "destroyed"`. -/
inductive ResourceStatus where
  | unevaluated
  | evaluating
  | evaluated
  | stale
  | errored
  | destroyed
deriving DecidableEq, Repr

/-- Errors flowing through evaluation.  `raw n` is an arbitrary thrown value;
`wrapped e` is `new ResourceReevaluationError(this, e)` wrapping its cause. -/
inductive EvalError where
  | raw (code : Nat)
  | wrapped (cause : EvalError)
deriving DecidableEq, Repr

/-- The `EvaluationResult` record of `resource.types.ts`:
`{ value, onTeardown? }`.  The teardown callback is identified by a `Nat`. -/
structure EvaluationResult (A : Type) where
  value : A
  onTeardown : Option Nat
deriving DecidableEq, Repr

/-- Settled content of the cached `evaluationPromise`.  `pending` marks a
promise that will never settle (see the module comment). -/
inductive PromiseVal (A : Type) where
  | settled (r : Except EvalError (EvaluationResult A))
  | pending

/-- The mutable per-instance fields of `Resource` that the evaluation engine
reads and writes (`src/src/resource.ts` lines 26-38).  Observer callback sets
are not part of the state; observer invocations are reported as event lists by
the operations instead.  `errorables` is `options.errorables`. -/
structure NodeState (A : Type) where
  status : ResourceStatus
  error : Option EvalError
  erroredDependencies : List Nat
  evaluationPromise : Option (PromiseVal A)
  onTeardownCallback : Option Nat
  errorables : List Nat

/-- The private `status` setter (`resource.ts` lines 81-87): stores the value
and clears `error` whenever the new status is not `errored`. -/
def setStatus {A : Type} (s : NodeState A) (v : ResourceStatus) : NodeState A :=
  { s with
    status := v
    error := if v = ResourceStatus.errored then s.error else none }

/-- What the body of `evaluate` (`resource.ts` lines 136-153) decides to do
with the cached promise before awaiting: create a fresh evaluation promise,
await the existing one, or throw the stored error.  Note the `switch` has no
`destroyed` case, so a destroyed node with a cached promise falls through to
awaiting the existing promise. -/
inductive DispatchAction where
  | startNewCycle
  | awaitExisting
  | throwStored
deriving DecidableEq, Repr

/-- Dispatch logic of `evaluate` (`resource.ts` lines 136-153). -/
def dispatchAction {A : Type} (promise : Option (PromiseVal A)) :
    ResourceStatus → DispatchAction :=
  fun status =>
    match promise with
    | none => DispatchAction.startNewCycle
    | some _ =>
      match status with
      | ResourceStatus.evaluating => DispatchAction.awaitExisting
      | ResourceStatus.evaluated => DispatchAction.awaitExisting
      | ResourceStatus.errored => DispatchAction.throwStored
      | ResourceStatus.unevaluated => DispatchAction.startNewCycle
      | ResourceStatus.stale => DispatchAction.startNewCycle
      | ResourceStatus.destroyed => DispatchAction.awaitExisting

/-- One pass of the `for` loop of `evaluateDependencies` (`resource.ts` lines
299-325) over the settled results, threading the partial dependency map
`acc`, the `erroredDependencies` set and the list of keys for which
`triggerOnErrorableError` fired.  Returns the thrown reason on abort together
with the state of the mutable fields at the moment of the throw. -/
def evalDepsLoop {V : Type} (errorables : List Nat) :
    List (Nat × V) → List Nat → List Nat →
    List (Nat × Except EvalError V) →
    Except EvalError (List (Nat × V)) × List Nat × List Nat
  | acc, errored, notified, [] => (Except.ok acc, errored, notified)
  | acc, errored, notified, (key, Except.ok v) :: rest =>
      evalDepsLoop errorables (acc ++ [(key, v)]) (errored.erase key) notified rest
  | acc, errored, notified, (key, Except.error reason) :: rest =>
      if key ∈ errored then
        evalDepsLoop errorables acc errored notified rest
      else
        if key ∈ errorables then
          evalDepsLoop errorables acc (errored ++ [key]) (notified ++ [key]) rest
        else
          (Except.error reason, errored ++ [key], notified)

/-- Events of one evaluation cycle, used to state ordering properties. -/
inductive CycleEvent where
  | resolveDeps
  | runTeardownHook (hook : Nat)
  | runEvaluator
  | storeHook (hook : Option Nat)
deriving DecidableEq, Repr

/-- Outcome of the promise produced by `createEvaluationPromise`. -/
inductive CycleOut (A : Type) where
  | settledOk (r : EvaluationResult A)
  | settledErr (e : EvalError)
  | hang
  | fuelOut

/-- Result of running `createEvaluationPromise`: settled content, final node
state, number of evaluator invocations, keys for which
`triggerOnErrorableError` fired, and the event trace. -/
structure CycleRet (A V : Type) where
  out : CycleOut A
  state : NodeState A
  invocations : Nat
  notified : List Nat
  trace : List CycleEvent

/-- The evaluation cycle `createEvaluationPromise` (`resource.ts` lines
230-280) in the interference-free setting: no other actor writes the node's
status between the `await` points of one call, so each run is a straight-line
execution.  The race-check `switch` on the status observed after the
evaluator is kept in full (with recursion and fuel for its restart branch);
races are modelled separately by `runCycle` below.  The dependency promises'
settled outcomes are the oracle `depResults`. -/
def createEvaluationPromise {A V : Type}
    (ev : List (Nat × V) → Except EvalError (EvaluationResult A))
    (depResults : List (Nat × Except EvalError V)) :
    Nat → NodeState A → CycleRet A V
  | 0, s => ⟨CycleOut.fuelOut, s, 0, [], []⟩
  | fuel + 1, s =>
    if s.status = ResourceStatus.destroyed then
      -- the naked `throw` inside the async executor: the promise never settles
      ⟨CycleOut.hang, s, 0, [], []⟩
    else
      let s1 := setStatus s ResourceStatus.evaluating
      match evalDepsLoop s1.errorables [] s1.erroredDependencies [] depResults with
      | (Except.error e, errored1, notified) =>
        ⟨CycleOut.settledErr e, { s1 with erroredDependencies := errored1 }, 0,
          notified, [CycleEvent.resolveDeps]⟩
      | (Except.ok deps, errored1, notified) =>
        let s2 := { s1 with erroredDependencies := errored1 }
        let tdTrace :=
          match s2.onTeardownCallback with
          | some h => [CycleEvent.runTeardownHook h]
          | none => []
        match ev deps with
        | Except.error e =>
          ⟨CycleOut.settledErr e, s2, 1, notified,
            CycleEvent.resolveDeps :: tdTrace ++ [CycleEvent.runEvaluator]⟩
        | Except.ok result =>
          let s3 := { s2 with onTeardownCallback := result.onTeardown }
          let trace0 :=
            CycleEvent.resolveDeps :: tdTrace ++
              [CycleEvent.runEvaluator, CycleEvent.storeHook result.onTeardown]
          match s3.status with
          | ResourceStatus.evaluating =>
            ⟨CycleOut.settledOk result, setStatus s3 ResourceStatus.evaluated, 1,
              notified, trace0⟩
          | ResourceStatus.errored =>
            ⟨CycleOut.settledOk result, setStatus s3 ResourceStatus.evaluated, 1,
              notified, trace0⟩
          | ResourceStatus.evaluated =>
            ⟨CycleOut.settledOk result, s3, 1, notified, trace0⟩
          | ResourceStatus.unevaluated =>
            let r := createEvaluationPromise ev depResults fuel s3
            ⟨r.out, r.state, 1 + r.invocations, notified ++ r.notified,
              trace0 ++ r.trace⟩
          | ResourceStatus.stale =>
            let r := createEvaluationPromise ev depResults fuel s3
            ⟨r.out, r.state, 1 + r.invocations, notified ++ r.notified,
              trace0 ++ r.trace⟩
          | ResourceStatus.destroyed =>
            ⟨CycleOut.settledOk result, s3, 1, notified, trace0⟩

/-- Outcome of one `evaluate()` call as observed by its caller. -/
inductive EvalOutcome (A : Type) where
  | ok (r : EvaluationResult A)
  | err (e : EvalError)
  | hang
  | fuelOut

/-- Result of one `evaluate()` call: caller-visible outcome, node state after
the call, evaluator invocations performed, errorable-error notifications, and
the cycle event trace. -/
structure EvalRet (A V : Type) where
  outcome : EvalOutcome A
  state : NodeState A
  invocations : Nat
  notified : List Nat
  trace : List CycleEvent

/-- The `evaluate` method (`resource.ts` lines 135-163): dispatch on the
cached promise and status, then await the promise inside `try`, with the
`catch` wrapping the rejection reason, setting status `errored` and storing
the wrapped error. -/
def evaluate {A V : Type}
    (ev : List (Nat × V) → Except EvalError (EvaluationResult A))
    (depResults : List (Nat × Except EvalError V))
    (fuel : Nat) (s : NodeState A) : EvalRet A V :=
  match dispatchAction s.evaluationPromise s.status with
  | DispatchAction.startNewCycle =>
    let c := createEvaluationPromise ev depResults fuel s
    match c.out with
    | CycleOut.settledOk r =>
      ⟨EvalOutcome.ok r,
        { c.state with evaluationPromise := some (PromiseVal.settled (Except.ok r)) },
        c.invocations, c.notified, c.trace⟩
    | CycleOut.settledErr e =>
      let s1 :=
        { c.state with evaluationPromise := some (PromiseVal.settled (Except.error e)) }
      ⟨EvalOutcome.err (EvalError.wrapped e),
        { setStatus s1 ResourceStatus.errored with error := some (EvalError.wrapped e) },
        c.invocations, c.notified, c.trace⟩
    | CycleOut.hang =>
      ⟨EvalOutcome.hang, { c.state with evaluationPromise := some PromiseVal.pending },
        c.invocations, c.notified, c.trace⟩
    | CycleOut.fuelOut =>
      ⟨EvalOutcome.fuelOut, c.state, c.invocations, c.notified, c.trace⟩
  | DispatchAction.awaitExisting =>
    match s.evaluationPromise with
    | some (PromiseVal.settled (Except.ok r)) => ⟨EvalOutcome.ok r, s, 0, [], []⟩
    | some (PromiseVal.settled (Except.error e)) =>
      ⟨EvalOutcome.err (EvalError.wrapped e),
        { setStatus s ResourceStatus.errored with error := some (EvalError.wrapped e) },
        0, [], []⟩
    | some PromiseVal.pending => ⟨EvalOutcome.hang, s, 0, [], []⟩
    | none => ⟨EvalOutcome.hang, s, 0, [], []⟩
  | DispatchAction.throwStored =>
    match s.error with
    | some e => ⟨EvalOutcome.err e, s, 0, [], []⟩
    | none => ⟨EvalOutcome.err (EvalError.raw 0), s, 0, [], []⟩

/-- The synchronous prefix of an `evaluate()` call: everything that runs
before the caller first yields at `await this.evaluationPromise`.  When a new
cycle is created, `createEvaluationPromise` runs synchronously through the
destroyed-guard and the status write up to its first `await`, so afterwards
the promise field is set (still pending) and the status is `evaluating`. -/
def evaluateSyncPrefix {A : Type} (s : NodeState A) : NodeState A :=
  match dispatchAction s.evaluationPromise s.status with
  | DispatchAction.startNewCycle =>
    if s.status = ResourceStatus.destroyed then
      { s with evaluationPromise := some PromiseVal.pending }
    else
      { setStatus s ResourceStatus.evaluating with
        evaluationPromise := some PromiseVal.pending }
  | _ => s

/-- The `markStale` method restricted to the node itself (`resource.ts` lines
100-125) for a node with no dependents: no-op from `unevaluated`/`stale`,
transition to `stale` from the three active statuses, and a thrown `Error`
from `destroyed`.  Propagation to dependents is modelled by `markStaleRun` on
graphs below. -/
def markStaleSelf {A : Type} (s : NodeState A) : Except Unit (NodeState A) :=
  match s.status with
  | ResourceStatus.unevaluated => Except.ok s
  | ResourceStatus.stale => Except.ok s
  | ResourceStatus.evaluated => Except.ok (setStatus s ResourceStatus.stale)
  | ResourceStatus.evaluating => Except.ok (setStatus s ResourceStatus.stale)
  | ResourceStatus.errored => Except.ok (setStatus s ResourceStatus.stale)
  | ResourceStatus.destroyed => Except.error ()

/-- The `destroy` method (`resource.ts` lines 89-98): invoke the stored
teardown hook if any (reported in the returned event list), clear it, set
status `destroyed` and clear the error.  Callback-set clearing has no
counterpart in `NodeState`; dependent-set clearing is modelled on graphs by
`destroyNodeG`. -/
def destroyOp {A : Type} (s : NodeState A) : NodeState A × List CycleEvent :=
  let events :=
    match s.onTeardownCallback with
    | some h => [CycleEvent.runTeardownHook h]
    | none => []
  ({ setStatus { s with onTeardownCallback := none } ResourceStatus.destroyed with
      error := none },
    events)

/-- A freshly constructed node with no dependencies and no errorable keys
(`resource.ts` constructor, lines 55-75). -/
def freshNode : NodeState Nat :=
  ⟨ResourceStatus.unevaluated, none, [], none, none, []⟩

/-- Statuses of `ResourceNode` in `src/src/resource-node.ts`
(`ResourceNodeStatus`): `"uninitialized" | "loading" | "ready" | "stale" |
"errored"`. -/
inductive ResourceNodeStatus where
  | uninitializedStatus
  | loading
  | ready
  | stale
  | errored
deriving DecidableEq, Repr

/-- `ResourceNode.#MAX_CONTINUOUS_EVALUATION_COUNT` (`resource-node.ts` line
63). -/
def MAX_CONTINUOUS_EVALUATION_COUNT : Nat := 2

/-- One round of `ResourceNode.#createValuePromise` (`resource-node.ts` lines
176-228) for a node with no dependencies: `value` is what the round's call of
the value-producing hook returns, and `statusDuring` is the status another
actor wrote to the node while that call was suspended (`none` when nobody
touched the node, in which case the status stays `loading`). -/
structure CycleRound (A : Type) where
  value : A
  statusDuring : Option ResourceNodeStatus

/-- Result of `#createValuePromise`: the value passed to `resolve`, the final
status, the final `#continuousEvaluationCount` and how many times the
continuous-evaluation `console.warn` fired. -/
structure NodeCycleOutcome (A : Type) where
  value : A
  finalStatus : ResourceNodeStatus
  finalCount : Nat
  warnings : Nat

/-- Whether a round's observed post-suspension status takes the
restart branch of the race-check `switch` (`resource-node.ts` lines 208-220):
the statuses `uninitialized` and `stale`. -/
def roundRestarts {A : Type} (r : CycleRound A) : Bool :=
  match r.statusDuring with
  | some ResourceNodeStatus.uninitializedStatus => true
  | some ResourceNodeStatus.stale => true
  | _ => false

/-- The `#createValuePromise` loop of `resource-node.ts` (lines 176-228) for a
node with no dependencies, with interference during the hook suspension given
by the schedule `rounds`.  Each recursive restart consumes the next round;
`none` is returned when the schedule is exhausted mid-restart (an unfinished
run).  `count` is `#continuousEvaluationCount` on entry.  The status setter
(lines 81-91) resets the count to `0` whenever `ready` is assigned; the
warning fires on a restart whose incremented count exceeds
`MAX_CONTINUOUS_EVALUATION_COUNT`. -/
def runCycle {A : Type} : List (CycleRound A) → Nat → Option (NodeCycleOutcome A)
  | [], _ => none
  | r :: rest, count =>
    -- this.#status = "loading"; dependencies resolve; the hook runs and
    -- returns r.value; meanwhile another actor may have written the status.
    let observed :=
      match r.statusDuring with
      | some st => st
      | none => ResourceNodeStatus.loading
    match observed with
    | ResourceNodeStatus.loading =>
      -- not restarted: this.status = "ready" (setter resets the count)
      some ⟨r.value, ResourceNodeStatus.ready, 0, 0⟩
    | ResourceNodeStatus.errored =>
      -- "this new value is working, let's just go ahead with that"
      some ⟨r.value, ResourceNodeStatus.ready, 0, 0⟩
    | ResourceNodeStatus.ready =>
      -- already ready: resolve without writing the status again
      some ⟨r.value, ResourceNodeStatus.ready, count, 0⟩
    | ResourceNodeStatus.uninitializedStatus =>
      let count1 := count + 1
      let warn := if MAX_CONTINUOUS_EVALUATION_COUNT < count1 then 1 else 0
      match runCycle rest count1 with
      | none => none
      | some o => some { o with warnings := o.warnings + warn }
    | ResourceNodeStatus.stale =>
      let count1 := count + 1
      let warn := if MAX_CONTINUOUS_EVALUATION_COUNT < count1 then 1 else 0
      match runCycle rest count1 with
      | none => none
      | some o => some { o with warnings := o.warnings + warn }

/-- A node of the dependency graph of `src/src/resource.ts`: its status,
stored error, and dependents (reverse edges, as node identifiers).  Forward
edges are implicit: `j ∈ (g i).dependents` exactly when node `i` is among the
dependencies of node `j` (registered at construction, lines 72-75). -/
structure GraphNode where
  status : ResourceStatus
  error : Option EvalError
  dependents : List Nat

/-- A dependency graph: nodes indexed by `Nat` identifiers. -/
def Graph : Type := Nat → GraphNode

/-- Pointwise update of a graph at one node. -/
def updateG (g : Graph) (i : Nat) (n : GraphNode) : Graph :=
  fun j => if j = i then n else g j

/-- Failures of an invalidation propagation run: the model's artificial fuel
exhaustion, or the `Error` thrown by `markStale`/`invalidate` on a destroyed
node. -/
inductive PropErr where
  | outOfFuel
  | destroyedResource
deriving DecidableEq, Repr

/-- The node write performed by `markStale` on a real transition
(`resource.ts` line 112): status `stale`, the setter clearing the error. -/
def writeStale (n : GraphNode) : GraphNode :=
  { n with status := ResourceStatus.stale, error := none }

/-- A pending call of the mutually recursive pair
`markStale`/`markDependentsStale` (`resource.ts` lines 100-133): `one chain i`
is `(resource i).markStale(chain)`; `many chain l` is the loop of
`markDependentsStale` calling `markStale(chain)` on each node of `l` in
order. -/
inductive StaleCall where
  | one (chain : List Nat) (i : Nat)
  | many (chain : List Nat) (l : List Nat)

/-- The recursion of `markStale`/`markDependentsStale` (`resource.ts` lines
100-133), fuelled.  Returns the updated graph and the list of
`triggerOnMarkedStale` observer events `(node, callChain)` in invocation
order, or the thrown error.  On a real transition the node's status becomes
`stale` (the setter clearing `error`), the observers fire with the incoming
chain, and the dependents are marked with the chain extended by the node. -/
def markStaleRun : Nat → Graph → StaleCall → Except PropErr (Graph × List (Nat × List Nat))
  | 0, _, _ => Except.error PropErr.outOfFuel
  | fuel + 1, g, StaleCall.one chain i =>
    match (g i).status with
    | ResourceStatus.unevaluated | ResourceStatus.stale => Except.ok (g, [])
    | ResourceStatus.evaluated | ResourceStatus.evaluating | ResourceStatus.errored =>
      let g1 := updateG g i (writeStale (g i))
      match markStaleRun fuel g1 (StaleCall.many (chain ++ [i]) ((g i).dependents)) with
      | Except.ok (g2, evs) => Except.ok (g2, (i, chain) :: evs)
      | Except.error e => Except.error e
    | ResourceStatus.destroyed => Except.error PropErr.destroyedResource
  | _ + 1, g, StaleCall.many _ [] => Except.ok (g, [])
  | fuel + 1, g, StaleCall.many chain (d :: ds) =>
    match markStaleRun fuel g (StaleCall.one chain d) with
    | Except.ok (g1, evs1) =>
      match markStaleRun fuel g1 (StaleCall.many chain ds) with
      | Except.ok (g2, evs2) => Except.ok (g2, evs1 ++ evs2)
      | Except.error e => Except.error e
    | Except.error e => Except.error e

/-- `(resource i).markStale(chain)` on a graph. -/
def markStaleG (fuel : Nat) (g : Graph) (chain : List Nat) (i : Nat) :
    Except PropErr (Graph × List (Nat × List Nat)) :=
  markStaleRun fuel g (StaleCall.one chain i)

/-- The graph effect of `destroy` (`resource.ts` lines 89-98): the destroyed
node's own dependents set is cleared and its status and error are reset, but
nothing removes the node from the dependents sets of the nodes it depends on
(those sets are only ever added to, in the constructor, lines 72-75). -/
def destroyNodeG (g : Graph) (n : Nat) : Graph :=
  updateG g n { g n with
    status := ResourceStatus.destroyed
    error := none
    dependents := [] }

/-- Statuses of the revised `Resource` of `src/unnamed/part_005`: the same six
statuses as `resource.ts`, with `"invalidated"` in place of `"stale"`. -/
inductive StatusV2 where
  | unevaluated
  | evaluating
  | evaluated
  | invalidated
  | errored
  | destroyed
deriving DecidableEq, Repr

/-- The `dependentsInvalidatedWhen` option of `src/unnamed/part_005` (lines
32-38): `"invalidated"` (immediate propagation, the default) or
`"reevaluated"` (propagation deferred to the end of the node's next
evaluation cycle). -/
inductive InvWhen where
  | invalidated
  | reevaluated
deriving DecidableEq, Repr

/-- A graph node of the revised `Resource` of `src/unnamed/part_005`:
status, stored error, dependents, the `dependentsInvalidatedWhen` option and
the `recentCallChain` recorded by `invalidate` (line 140). -/
structure NodeV2 where
  status : StatusV2
  error : Option EvalError
  dependents : List Nat
  dependentsInvalidatedWhen : InvWhen
  recentCallChain : List Nat

/-- A graph of revised nodes. -/
def GraphV2 : Type := Nat → NodeV2

/-- Pointwise update of a `GraphV2` at one node. -/
def updateG2 (g : GraphV2) (i : Nat) (n : NodeV2) : GraphV2 :=
  fun j => if j = i then n else g j

/-- The node write performed by `invalidate` on a real transition
(`src/unnamed/part_005` lines 137-140): status `invalidated` (the setter
clearing the error) and `recentCallChain` set to the incoming chain with the
node appended. -/
def writeInvalidated (n : NodeV2) (newChain : List Nat) : NodeV2 :=
  { n with
    status := StatusV2.invalidated
    error := none
    recentCallChain := newChain }

/-- A pending call of the mutually recursive pair
`invalidate`/`invalidateDependents` of `src/unnamed/part_005` (lines
125-162). -/
inductive InvCall where
  | one (chain : List Nat) (i : Nat)
  | many (chain : List Nat) (l : List Nat)

/-- The recursion of `invalidate`/`invalidateDependents`
(`src/unnamed/part_005` lines 125-162), fuelled.  Returns the updated graph
and the `triggerOnInvalidated` events `(node, invalidationChain)` in
invocation order.  A real transition writes the node via `writeInvalidated`
and then propagates to the dependents only when the node's
`dependentsInvalidatedWhen` option is `"invalidated"`. -/
def invalidateRun : Nat → GraphV2 → InvCall → Except PropErr (GraphV2 × List (Nat × List Nat))
  | 0, _, _ => Except.error PropErr.outOfFuel
  | fuel + 1, g, InvCall.one chain i =>
    match (g i).status with
    | StatusV2.unevaluated | StatusV2.invalidated => Except.ok (g, [])
    | StatusV2.evaluated | StatusV2.evaluating | StatusV2.errored =>
      let g1 := updateG2 g i (writeInvalidated (g i) (chain ++ [i]))
      if (g i).dependentsInvalidatedWhen = InvWhen.invalidated then
        match invalidateRun fuel g1 (InvCall.many (chain ++ [i]) ((g i).dependents)) with
        | Except.ok (g2, evs) => Except.ok (g2, (i, chain) :: evs)
        | Except.error e => Except.error e
      else Except.ok (g1, [(i, chain)])
    | StatusV2.destroyed => Except.error PropErr.destroyedResource
  | _ + 1, g, InvCall.many _ [] => Except.ok (g, [])
  | fuel + 1, g, InvCall.many chain (d :: ds) =>
    match invalidateRun fuel g (InvCall.one chain d) with
    | Except.ok (g1, evs1) =>
      match invalidateRun fuel g1 (InvCall.many chain ds) with
      | Except.ok (g2, evs2) => Except.ok (g2, evs1 ++ evs2)
      | Except.error e => Except.error e
    | Except.error e => Except.error e

/-- `(resource i).invalidate(chain)` on a graph of revised nodes. -/
def invalidateG (fuel : Nat) (g : GraphV2) (chain : List Nat) (i : Nat) :
    Except PropErr (GraphV2 × List (Nat × List Nat)) :=
  invalidateRun fuel g (InvCall.one chain i)

/-- The `finally` block of the revised `createEvaluationPromise`
(`src/unnamed/part_005` lines 307-311): when the node's
`dependentsInvalidatedWhen` option is `"reevaluated"`, the end of each
evaluation cycle runs `invalidateDependents(this.recentCallChain)`. -/
def evaluationFinallyV2 (fuel : Nat) (g : GraphV2) (i : Nat) :
    Except PropErr (GraphV2 × List (Nat × List Nat)) :=
  if (g i).dependentsInvalidatedWhen = InvWhen.reevaluated then
    invalidateRun fuel g (InvCall.many ((g i).recentCallChain) ((g i).dependents))
  else Except.ok (g, [])

/-- Statuses from which `invalidate` performs a real transition. -/
def invalidatableV2 (st : StatusV2) : Prop :=
  st = StatusV2.evaluated ∨ st = StatusV2.evaluating ∨ st = StatusV2.errored

/-- Statuses from which `markStale` performs a real transition. -/
def invalidatable (st : ResourceStatus) : Prop :=
  st = ResourceStatus.evaluated ∨ st = ResourceStatus.evaluating ∨
    st = ResourceStatus.errored


theorem invalidateRun_writes :
    ∀ (fuel : Nat) (g : GraphV2) (c : InvCall) (g' : GraphV2)
      (evs : List (Nat × List Nat)),
      invalidateRun fuel g c = Except.ok (g', evs) →
      ∀ j, g' j = g j ∨
        (invalidatableV2 (g j).status ∧ ∃ ch, g' j = writeInvalidated (g j) ch) := by
  intro fuel
  induction fuel with
  | zero =>
    intro g c g' evs h j
    simp [invalidateRun] at h
  | succ fuel ih =>
    intro g c g' evs h j
    cases c with
    | one chain i =>
      cases hst : (g i).status with
      | unevaluated =>
        simp [invalidateRun, hst] at h
        obtain ⟨hg, _⟩ := h
        subst hg
        exact Or.inl rfl
      | invalidated =>
        simp [invalidateRun, hst] at h
        obtain ⟨hg, _⟩ := h
        subst hg
        exact Or.inl rfl
      | destroyed => simp [invalidateRun, hst] at h
      | evaluated | evaluating | errored =>
        simp only [invalidateRun, hst] at h
        split at h
        case isTrue =>
          cases hrec : invalidateRun fuel
              (updateG2 g i (writeInvalidated (g i) (chain ++ [i])))
              (InvCall.many (chain ++ [i]) ((g i).dependents)) with
          | ok r =>
            obtain ⟨g2, evs2⟩ := r
            simp [hrec] at h
            obtain ⟨hg, _⟩ := h
            subst hg
            have t := ih _ _ _ _ hrec j
            by_cases hji : j = i
            · subst hji
              rw [show (updateG2 g j (writeInvalidated (g j) (chain ++ [j]))) j
                  = writeInvalidated (g j) (chain ++ [j]) by simp [updateG2]] at t
              rcases t with t | ⟨tinv, _⟩
              · exact Or.inr ⟨by simp [invalidatableV2, hst], chain ++ [j], t⟩
              · simp [invalidatableV2, writeInvalidated] at tinv
            · rw [show (updateG2 g i (writeInvalidated (g i) (chain ++ [i]))) j = g j by
                simp [updateG2, hji]] at t
              exact t
          | error e => simp [hrec] at h
        case isFalse =>
          simp at h
          obtain ⟨hg, _⟩ := h
          subst hg
          by_cases hji : j = i
          · subst hji
            exact Or.inr ⟨by simp [invalidatableV2, hst],
              chain ++ [j], by simp [updateG2]⟩
          · rw [show (updateG2 g i (writeInvalidated (g i) (chain ++ [i]))) j = g j by
              simp [updateG2, hji]]
            exact Or.inl rfl
    | many chain l =>
      cases l with
      | nil =>
        simp [invalidateRun] at h
        obtain ⟨hg, _⟩ := h
        subst hg
        exact Or.inl rfl
      | cons d ds =>
        cases hrec1 : invalidateRun fuel g (InvCall.one chain d) with
        | ok r1 =>
          obtain ⟨g1, evs1⟩ := r1
          cases hrec2 : invalidateRun fuel g1 (InvCall.many chain ds) with
          | ok r2 =>
            obtain ⟨g2, evs2⟩ := r2
            simp [invalidateRun, hrec1, hrec2] at h
            obtain ⟨hg, _⟩ := h
            subst hg
            have t1 := ih _ _ _ _ hrec1 j
            have t2 := ih _ _ _ _ hrec2 j
            rcases t2 with t2 | ⟨t2inv, ch2, t2w⟩
            · rw [t2]
              exact t1
            · rcases t1 with t1 | ⟨_, ch1, t1w⟩
              · rw [t1] at t2inv t2w
                exact Or.inr ⟨t2inv, ch2, t2w⟩
              · rw [t1w] at t2inv
                simp [invalidatableV2, writeInvalidated] at t2inv
          | error e => simp [invalidateRun, hrec1, hrec2] at h
        | error e => simp [invalidateRun, hrec1] at h

theorem invalidateRun_one_writes_node (fuel : Nat) (g : GraphV2) (chain : List Nat)
    (i : Nat) (g' : GraphV2) (evs : List (Nat × List Nat))
    (hinv : invalidatableV2 (g i).status)
    (h : invalidateRun fuel g (InvCall.one chain i) = Except.ok (g', evs)) :
    g' i = writeInvalidated (g i) (chain ++ [i]) := by
  cases fuel with
  | zero => simp [invalidateRun] at h
  | succ fuel =>
    rcases hinv with hst | hst | hst <;>
    · simp only [invalidateRun, hst] at h
      split at h
      case isTrue =>
        cases hrec : invalidateRun fuel
            (updateG2 g i (writeInvalidated (g i) (chain ++ [i])))
            (InvCall.many (chain ++ [i]) ((g i).dependents)) with
        | ok r =>
          obtain ⟨g2, evs2⟩ := r
          simp [hrec] at h
          obtain ⟨hg, _⟩ := h
          subst hg
          have t := invalidateRun_writes fuel _ _ _ _ hrec i
          rw [show (updateG2 g i (writeInvalidated (g i) (chain ++ [i]))) i
              = writeInvalidated (g i) (chain ++ [i]) by simp [updateG2]] at t
          rcases t with t | ⟨tinv, _⟩
          · exact t
          · simp [invalidatableV2, writeInvalidated] at tinv
        | error e => simp [hrec] at h
      case isFalse =>
        simp at h
        obtain ⟨hg, _⟩ := h
        subst hg
        simp [updateG2]

theorem invalidateRun_many_invalidates (fuel : Nat) :
    ∀ (g : GraphV2) (chain : List Nat) (l : List Nat) (g' : GraphV2)
      (evs : List (Nat × List Nat)),
      invalidateRun fuel g (InvCall.many chain l) = Except.ok (g', evs) →
      ∀ j ∈ l, (invalidatableV2 (g j).status ∨ (g j).status = StatusV2.invalidated) →
        (g' j).status = StatusV2.invalidated := by
  induction fuel with
  | zero =>
    intro g chain l g' evs h
    simp [invalidateRun] at h
  | succ fuel ih =>
    intro g chain l g' evs h j hj hst
    cases l with
    | nil => simp at hj
    | cons d ds =>
      cases hrec1 : invalidateRun fuel g (InvCall.one chain d) with
      | ok r1 =>
        obtain ⟨g1, evs1⟩ := r1
        cases hrec2 : invalidateRun fuel g1 (InvCall.many chain ds) with
        | ok r2 =>
          obtain ⟨g2, evs2⟩ := r2
          simp [invalidateRun, hrec1, hrec2] at h
          obtain ⟨hg, _⟩ := h
          subst hg
          rcases List.mem_cons.mp hj with hjd | hjds
          · subst hjd
            have hg1j : (g1 j).status = StatusV2.invalidated := by
              rcases hst with hst | hst
              · rw [invalidateRun_one_writes_node fuel g chain j g1 evs1 hst hrec1]
                rfl
              · have t := invalidateRun_writes fuel _ _ _ _ hrec1 j
                rcases t with t | ⟨_, ch, tw⟩
                · rw [t, hst]
                · rw [tw]
                  rfl
            have t2 := invalidateRun_writes fuel _ _ _ _ hrec2 j
            rcases t2 with t2 | ⟨_, ch2, t2w⟩
            · rw [t2, hg1j]
            · rw [t2w]
              rfl
          · have t1 := invalidateRun_writes fuel _ _ _ _ hrec1 j
            have hst1 : invalidatableV2 (g1 j).status ∨ (g1 j).status = StatusV2.invalidated := by
              rcases t1 with t1 | ⟨_, ch1, t1w⟩
              · rw [t1]
                exact hst
              · rw [t1w]
                exact Or.inr rfl
            exact ih g1 chain ds g2 evs2 hrec2 j hjds hst1
        | error e => simp [invalidateRun, hrec1, hrec2] at h
      | error e => simp [invalidateRun, hrec1] at h

theorem markStaleRun_writes :
    ∀ (fuel : Nat) (g : Graph) (c : StaleCall) (g' : Graph)
      (evs : List (Nat × List Nat)),
      markStaleRun fuel g c = Except.ok (g', evs) →
      ∀ j, g' j = g j ∨ (invalidatable (g j).status ∧ g' j = writeStale (g j)) := by
  intro fuel
  induction fuel with
  | zero =>
    intro g c g' evs h j
    simp [markStaleRun] at h
  | succ fuel ih =>
    intro g c g' evs h j
    cases c with
    | one chain i =>
      cases hst : (g i).status with
      | unevaluated =>
        simp [markStaleRun, hst] at h
        obtain ⟨hg, _⟩ := h
        subst hg
        exact Or.inl rfl
      | stale =>
        simp [markStaleRun, hst] at h
        obtain ⟨hg, _⟩ := h
        subst hg
        exact Or.inl rfl
      | destroyed => simp [markStaleRun, hst] at h
      | evaluated | evaluating | errored =>
        simp only [markStaleRun, hst] at h
        cases hrec : markStaleRun fuel (updateG g i (writeStale (g i)))
            (StaleCall.many (chain ++ [i]) ((g i).dependents)) with
        | ok r =>
          obtain ⟨g2, evs2⟩ := r
          simp [hrec] at h
          obtain ⟨hg, _⟩ := h
          subst hg
          have t := ih _ _ _ _ hrec j
          by_cases hji : j = i
          · subst hji
            rw [show (updateG g j (writeStale (g j))) j = writeStale (g j) by
              simp [updateG]] at t
            rcases t with t | ⟨tinv, _⟩
            · exact Or.inr ⟨by simp [invalidatable, hst], t⟩
            · simp [invalidatable, writeStale] at tinv
          · rw [show (updateG g i (writeStale (g i))) j = g j by
              simp [updateG, hji]] at t
            exact t
        | error e => simp [hrec] at h
    | many chain l =>
      cases l with
      | nil =>
        simp [markStaleRun] at h
        obtain ⟨hg, _⟩ := h
        subst hg
        exact Or.inl rfl
      | cons d ds =>
        cases hrec1 : markStaleRun fuel g (StaleCall.one chain d) with
        | ok r1 =>
          obtain ⟨g1, evs1⟩ := r1
          cases hrec2 : markStaleRun fuel g1 (StaleCall.many chain ds) with
          | ok r2 =>
            obtain ⟨g2, evs2⟩ := r2
            simp [markStaleRun, hrec1, hrec2] at h
            obtain ⟨hg, _⟩ := h
            subst hg
            have t1 := ih _ _ _ _ hrec1 j
            have t2 := ih _ _ _ _ hrec2 j
            rcases t2 with t2 | ⟨t2inv, t2w⟩
            · rw [t2]
              exact t1
            · rcases t1 with t1 | ⟨_, t1w⟩
              · rw [t1] at t2inv t2w
                exact Or.inr ⟨t2inv, t2w⟩
              · rw [t1w] at t2inv
                simp [invalidatable, writeStale] at t2inv
          | error e => simp [markStaleRun, hrec1, hrec2] at h
        | error e => simp [markStaleRun, hrec1] at h

theorem markStaleRun_one_destroyed (fuel : Nat) (g : Graph) (chain : List Nat)
    (i : Nat) (hst : (g i).status = ResourceStatus.destroyed) (r : Graph × List (Nat × List Nat)) :
    markStaleRun fuel g (StaleCall.one chain i) ≠ Except.ok r := by
  cases fuel with
  | zero => simp [markStaleRun]
  | succ fuel => simp [markStaleRun, hst]

theorem markStaleRun_many_destroyed (fuel : Nat) :
    ∀ (g : Graph) (chain : List Nat) (l : List Nat) (n : Nat)
      (r : Graph × List (Nat × List Nat)),
      n ∈ l → (g n).status = ResourceStatus.destroyed →
      markStaleRun fuel g (StaleCall.many chain l) ≠ Except.ok r := by
  induction fuel with
  | zero =>
    intro g chain l n r _ _
    simp [markStaleRun]
  | succ fuel ih =>
    intro g chain l n r hn hst h
    cases l with
    | nil => simp at hn
    | cons d ds =>
      cases hrec1 : markStaleRun fuel g (StaleCall.one chain d) with
      | ok r1 =>
        obtain ⟨g1, evs1⟩ := r1
        rcases List.mem_cons.mp hn with hnd | hnds
        · subst hnd
          exact markStaleRun_one_destroyed fuel g chain n hst (g1, evs1) hrec1
        · cases hrec2 : markStaleRun fuel g1 (StaleCall.many chain ds) with
          | ok r2 =>
            have hst1 : (g1 n).status = ResourceStatus.destroyed := by
              have t := markStaleRun_writes fuel _ _ _ _ hrec1 n
              rcases t with t | ⟨tinv, _⟩
              · rw [t, hst]
              · rw [hst] at tinv
                simp [invalidatable] at tinv
            exact ih g1 chain ds n r2 hnds hst1 hrec2
          | error e => simp [markStaleRun, hrec1, hrec2] at h
      | error e => simp [markStaleRun, hrec1] at h

/-- Index of the first round of a schedule that does not take the restart
branch of the race check, if any. -/
def firstNonRestart {A : Type} : List (CycleRound A) → Option Nat
  | [] => none
  | r :: rest =>
    if roundRestarts r then (firstNonRestart rest).map (fun k => k + 1)
    else some 0

theorem runCycle_resolves :
    ∀ {A : Type} (rounds : List (CycleRound A)) (count j : Nat),
      firstNonRestart rounds = some j →
      ∃ r o, rounds.get? j = some r ∧ runCycle rounds count = some o ∧
        o.value = r.value ∧ roundRestarts r = false ∧
        o.warnings = (count + j) - max count MAX_CONTINUOUS_EVALUATION_COUNT := by
  intro A rounds
  induction rounds with
  | nil =>
    intro count j h
    simp [firstNonRestart] at h
  | cons r rest ih =>
    intro count j h
    cases hr : roundRestarts r with
    | false =>
      rw [firstNonRestart, hr] at h
      simp at h
      subst h
      have hcnt : count - max count MAX_CONTINUOUS_EVALUATION_COUNT = 0 :=
        Nat.sub_eq_zero_of_le (Nat.le_max_left _ _)
      have hresolve : ∃ o, runCycle (r :: rest) count = some o ∧ o.value = r.value ∧
          o.warnings = 0 := by
        cases hsd : r.statusDuring with
        | none => exact ⟨⟨r.value, ResourceNodeStatus.ready, 0, 0⟩, by simp [runCycle, hsd], rfl, rfl⟩
        | some st =>
          cases st with
          | uninitializedStatus => rw [roundRestarts, hsd] at hr; simp at hr
          | stale => rw [roundRestarts, hsd] at hr; simp at hr
          | loading => exact ⟨⟨r.value, ResourceNodeStatus.ready, 0, 0⟩, by simp [runCycle, hsd], rfl, rfl⟩
          | ready => exact ⟨⟨r.value, ResourceNodeStatus.ready, count, 0⟩, by simp [runCycle, hsd], rfl, rfl⟩
          | errored => exact ⟨⟨r.value, ResourceNodeStatus.ready, 0, 0⟩, by simp [runCycle, hsd], rfl, rfl⟩
      obtain ⟨o, ho, hov, how⟩ := hresolve
      exact ⟨r, o, rfl, ho, hov, hr, by rw [how, Nat.add_zero, hcnt]⟩
    | true =>
      rw [firstNonRestart, hr] at h
      simp at h
      obtain ⟨j1, hj1, hj⟩ := h
      subst hj
      obtain ⟨r1, o1, hget, hrun, hval, hnr, hw⟩ := ih (count + 1) j1 hj1
      have hobs : r.statusDuring = some ResourceNodeStatus.uninitializedStatus ∨
          r.statusDuring = some ResourceNodeStatus.stale := by
        cases hsd : r.statusDuring with
        | none => rw [roundRestarts, hsd] at hr; simp at hr
        | some st =>
          cases st <;> rw [roundRestarts, hsd] at hr <;> simp at hr
          · exact Or.inl rfl
          · exact Or.inr rfl
      have hwarn :
          runCycle (r :: rest) count = some { o1 with warnings := o1.warnings +
            if MAX_CONTINUOUS_EVALUATION_COUNT < count + 1 then 1 else 0 } := by
        rcases hobs with hsd | hsd <;> simp [runCycle, hsd, hrun]
      refine ⟨r1, _, by simpa using hget, hwarn, hval, hnr, ?_⟩
      simp only [hw, MAX_CONTINUOUS_EVALUATION_COUNT]
      rcases Nat.lt_or_ge MAX_CONTINUOUS_EVALUATION_COUNT (count + 1) with hc | hc
      · rw [if_pos (by simpa [MAX_CONTINUOUS_EVALUATION_COUNT] using hc)]
        rw [Nat.max_eq_left (by
          simp only [MAX_CONTINUOUS_EVALUATION_COUNT] at hc
          omega : 2 ≤ count + 1)]
        rw [Nat.max_eq_left (by
          simp only [MAX_CONTINUOUS_EVALUATION_COUNT] at hc
          omega : 2 ≤ count)]
        omega
      · rw [if_neg (by simpa [MAX_CONTINUOUS_EVALUATION_COUNT] using hc)]
        rw [Nat.max_eq_right (by
          simp only [MAX_CONTINUOUS_EVALUATION_COUNT] at hc
          omega : count + 1 ≤ 2)]
        rw [Nat.max_eq_right (by
          simp only [MAX_CONTINUOUS_EVALUATION_COUNT] at hc
          omega : count ≤ 2)]
        omega

theorem evalDepsLoop_aborts {V : Type} (errorables : List Nat) :
    ∀ (results : List (Nat × Except EvalError V)) (acc : List (Nat × V))
      (errored notified : List Nat) (k : Nat) (e : EvalError),
      (k, Except.error e) ∈ results →
      k ∉ errored →
      (results.map Prod.fst).Nodup →
      k ∉ errorables →
      ∃ e2 errored2 notified2,
        evalDepsLoop errorables acc errored notified results =
          (Except.error e2, errored2, notified2) := by
  intro results
  induction results with
  | nil =>
    intro acc errored notified k e hmem
    simp at hmem
  | cons hd rest ih =>
    intro acc errored notified k e hmem herr hnd hne
    obtain ⟨key, res⟩ := hd
    have hndtail : (rest.map Prod.fst).Nodup := (List.nodup_cons.mp hnd).2
    have hkeyrest : key ∉ rest.map Prod.fst := (List.nodup_cons.mp hnd).1
    cases res with
    | ok v =>
      have hrest : (k, Except.error e) ∈ rest := by
        rcases List.mem_cons.mp hmem with hh | hh
        · simp at hh
        · exact hh
      have hkne : k ≠ key := by
        intro hk
        subst hk
        exact hkeyrest (List.mem_map.mpr ⟨(k, Except.error e), hrest, rfl⟩)
      have herr2 : k ∉ errored.erase key := fun hmem2 =>
        herr (List.mem_of_mem_erase hmem2)
      simpa [evalDepsLoop] using
        ih (acc ++ [(key, v)]) (errored.erase key) notified k e hrest herr2 hndtail hne
    | error e0 =>
      by_cases hkey : key ∈ errored
      · have hkne : k ≠ key := by
          intro hk
          subst hk
          exact herr hkey
        have hrest : (k, Except.error e) ∈ rest := by
          rcases List.mem_cons.mp hmem with hh | hh
          · exact absurd (congrArg Prod.fst hh) hkne
          · exact hh
        simpa [evalDepsLoop, hkey] using
          ih acc errored notified k e hrest herr hndtail hne
      · by_cases hallow : key ∈ errorables
        · have hkne : k ≠ key := by
            intro hk
            subst hk
            exact hne hallow
          have hrest : (k, Except.error e) ∈ rest := by
            rcases List.mem_cons.mp hmem with hh | hh
            · exact absurd (congrArg Prod.fst hh) hkne
            · exact hh
          have herr2 : k ∉ errored ++ [key] := by
            simp [hkne]
            exact fun hmem2 => absurd hmem2 herr
          simpa [evalDepsLoop, hkey, hallow] using
            ih acc (errored ++ [key]) (notified ++ [key]) k e hrest herr2 hndtail hne
        · exact ⟨e0, errored ++ [key], notified, by simp [evalDepsLoop, hkey, hallow]⟩

theorem setStatus_status {A : Type} (s : NodeState A) (v : ResourceStatus) :
    (setStatus s v).status = v := rfl

/-- Teardown-related trace of a cycle, as a function of the stored hook. -/
def teardownTrace (hook : Option Nat) : List CycleEvent :=
  match hook with
  | some h => [CycleEvent.runTeardownHook h]
  | none => []

theorem createEvaluationPromise_deps_error {A V : Type}
    (ev : List (Nat × V) → Except EvalError (EvaluationResult A))
    (dr : List (Nat × Except EvalError V)) (fuel : Nat) (s : NodeState A)
    (e : EvalError) (errored1 notified : List Nat)
    (hnd : s.status ≠ ResourceStatus.destroyed)
    (hdeps : evalDepsLoop s.errorables [] s.erroredDependencies [] dr =
      (Except.error e, errored1, notified)) :
    createEvaluationPromise ev dr (fuel + 1) s =
      ⟨CycleOut.settledErr e,
        { setStatus s ResourceStatus.evaluating with erroredDependencies := errored1 },
        0, notified, [CycleEvent.resolveDeps]⟩ := by
  simp [createEvaluationPromise, hnd, setStatus] at hdeps ⊢
  rw [hdeps]

theorem createEvaluationPromise_ok {A V : Type}
    (ev : List (Nat × V) → Except EvalError (EvaluationResult A))
    (dr : List (Nat × Except EvalError V)) (fuel : Nat) (s : NodeState A)
    (deps : List (Nat × V)) (result : EvaluationResult A) (errored1 notified : List Nat)
    (hnd : s.status ≠ ResourceStatus.destroyed)
    (hdeps : evalDepsLoop s.errorables [] s.erroredDependencies [] dr =
      (Except.ok deps, errored1, notified))
    (hev : ev deps = Except.ok result) :
    createEvaluationPromise ev dr (fuel + 1) s =
      ⟨CycleOut.settledOk result,
        setStatus
          { s with
            error := none
            erroredDependencies := errored1
            onTeardownCallback := result.onTeardown
            status := ResourceStatus.evaluating }
          ResourceStatus.evaluated,
        1, notified,
        CycleEvent.resolveDeps :: teardownTrace s.onTeardownCallback ++
          [CycleEvent.runEvaluator, CycleEvent.storeHook result.onTeardown]⟩ := by
  simp [createEvaluationPromise, hnd, setStatus] at hdeps ⊢
  rw [hdeps]
  simp [hev, teardownTrace, setStatus]

theorem createEvaluationPromise_ev_error {A V : Type}
    (ev : List (Nat × V) → Except EvalError (EvaluationResult A))
    (dr : List (Nat × Except EvalError V)) (fuel : Nat) (s : NodeState A)
    (deps : List (Nat × V)) (e : EvalError) (errored1 notified : List Nat)
    (hnd : s.status ≠ ResourceStatus.destroyed)
    (hdeps : evalDepsLoop s.errorables [] s.erroredDependencies [] dr =
      (Except.ok deps, errored1, notified))
    (hev : ev deps = Except.error e) :
    createEvaluationPromise ev dr (fuel + 1) s =
      ⟨CycleOut.settledErr e,
        { setStatus s ResourceStatus.evaluating with erroredDependencies := errored1 },
        1, notified,
        CycleEvent.resolveDeps :: teardownTrace s.onTeardownCallback ++
          [CycleEvent.runEvaluator]⟩ := by
  simp [createEvaluationPromise, hnd, setStatus] at hdeps ⊢
  rw [hdeps]
  simp [hev, teardownTrace]

/-- The stored-error invariant of claim C8: the stored error is present
exactly when the status is `errored`. -/
def errInvariant {A : Type} (s : NodeState A) : Prop :=
  s.status = ResourceStatus.errored ↔ s.error.isSome

theorem createEvaluationPromise_errInv {A V : Type}
    (ev : List (Nat × V) → Except EvalError (EvaluationResult A))
    (dr : List (Nat × Except EvalError V)) (fuel : Nat) (s : NodeState A)
    (h : errInvariant s) :
    errInvariant (createEvaluationPromise ev dr fuel s).state := by
  cases fuel with
  | zero => exact h
  | succ fuel =>
    by_cases hnd : s.status = ResourceStatus.destroyed
    · simpa [createEvaluationPromise, hnd] using h
    · rcases hdeps : evalDepsLoop s.errorables [] s.erroredDependencies [] dr with
        ⟨res, errored1, notified⟩
      cases res with
      | error e =>
        rw [createEvaluationPromise_deps_error ev dr fuel s e errored1 notified hnd hdeps]
        simp [errInvariant, setStatus]
      | ok deps =>
        cases hev : ev deps with
        | ok result =>
          rw [createEvaluationPromise_ok ev dr fuel s deps result errored1 notified hnd
            hdeps hev]
          simp [errInvariant, setStatus]
        | error e =>
          rw [createEvaluationPromise_ev_error ev dr fuel s deps e errored1 notified hnd
            hdeps hev]
          simp [errInvariant, setStatus]

theorem evaluate_errInv {A V : Type}
    (ev : List (Nat × V) → Except EvalError (EvaluationResult A))
    (dr : List (Nat × Except EvalError V)) (fuel : Nat) (s : NodeState A)
    (h : errInvariant s) :
    errInvariant (evaluate ev dr fuel s).state := by
  cases hda : dispatchAction s.evaluationPromise s.status with
  | startNewCycle =>
    have hcyc := createEvaluationPromise_errInv ev dr fuel s h
    cases hc : (createEvaluationPromise ev dr fuel s).out with
    | settledOk r =>
      simpa [evaluate, hda, hc, errInvariant] using hcyc
    | settledErr e =>
      simp [evaluate, hda, hc, errInvariant, setStatus]
    | hang =>
      simpa [evaluate, hda, hc, errInvariant] using hcyc
    | fuelOut =>
      simpa [evaluate, hda, hc, errInvariant] using hcyc
  | awaitExisting =>
    cases hp : s.evaluationPromise with
    | none =>
      rw [hp] at hda
      simp [dispatchAction] at hda
    | some pv =>
      rw [hp] at hda
      cases pv with
      | settled r =>
        cases r with
        | ok v => simpa [evaluate, hp, hda, errInvariant] using h
        | error e => simp [evaluate, hp, hda, errInvariant, setStatus]
      | pending => simpa [evaluate, hp, hda, errInvariant] using h
  | throwStored =>
    cases he : s.error with
    | none => simpa [evaluate, hda, he, errInvariant] using h
    | some e => simpa [evaluate, hda, he, errInvariant] using h

/-- A pure evaluator returning `v` with no teardown hook, as in the README's
`numberResource` example. -/
def c1Ev (v : Nat) : List (Nat × Nat) → Except EvalError (EvaluationResult Nat) :=
  fun _ => Except.ok ⟨v, none⟩

/-- First `evaluate()` call on a fresh node. -/
def c1FirstCall (v : Nat) : EvalRet Nat Nat := evaluate (c1Ev v) [] 1 freshNode

/-- Second `evaluate()` call, sequential, with no intervening invalidation. -/
def c1SecondCall (v : Nat) : EvalRet Nat Nat :=
  evaluate (c1Ev v) [] 1 (c1FirstCall v).state

/-- C1: for a node with a pure evaluator, two `evaluate()` calls with no
intervening invalidation resolve to identical values and run the evaluator
exactly once.  Sequentially: the first call on a fresh node performs the one
evaluator invocation and the second call resolves the same value with zero
invocations.  Concurrently: after the synchronous prefix of a first call on a
fresh node, a second caller's dispatch awaits the existing cached promise
instead of starting a cycle, and the single in-flight cycle invokes the
evaluator exactly once.  In general, whenever a cycle is in flight
(`evaluating`) or completed (`evaluated`), the dispatch of `evaluate` awaits
the existing cached computation. -/
theorem evaluate_memoizes_and_deduplicates (v : Nat) :
    (c1FirstCall v).outcome = EvalOutcome.ok ⟨v, none⟩ ∧
    (c1SecondCall v).outcome = EvalOutcome.ok ⟨v, none⟩ ∧
    (c1FirstCall v).invocations + (c1SecondCall v).invocations = 1 ∧
    dispatchAction (evaluateSyncPrefix freshNode).evaluationPromise
      (evaluateSyncPrefix freshNode).status = DispatchAction.awaitExisting ∧
    (∀ (p : PromiseVal Nat),
      dispatchAction (some p) ResourceStatus.evaluating = DispatchAction.awaitExisting ∧
      dispatchAction (some p) ResourceStatus.evaluated = DispatchAction.awaitExisting) ∧
    (createEvaluationPromise (c1Ev v) [] 1 freshNode).invocations = 1 :=
  ⟨rfl, rfl, rfl, rfl, fun _ => ⟨rfl, rfl⟩, rfl⟩

/-- The three-node chain of the spec's propagation property: B (node 1)
depends on A (node 0), C (node 2) depends on B, all previously evaluated. -/
def c7Graph : Graph := fun i =>
  if i = 0 then ⟨ResourceStatus.evaluated, none, [1]⟩
  else if i = 1 then ⟨ResourceStatus.evaluated, none, [2]⟩
  else ⟨ResourceStatus.evaluated, none, []⟩

/-- C7: invalidation propagates transitively through reverse edges: with B
depending on A and C depending on B, all evaluated, a single `markStale` call
on A returns with A, B and C all `stale` — the propagation happens inside the
synchronous call itself, before it returns and before any evaluation. -/
theorem markStale_propagates_transitively :
    (markStaleG 9 c7Graph [] 0).map
        (fun r => ((r.1 0).status, (r.1 1).status, (r.1 2).status)) =
      Except.ok
        (ResourceStatus.stale, ResourceStatus.stale, ResourceStatus.stale) := rfl

/-- C10's two-node instance: node 0 (the dependency) evaluated with node 1
registered as its dependent; node 1 will be destroyed. -/
def c10Graph : Graph := fun i =>
  if i = 0 then ⟨ResourceStatus.evaluated, none, [1]⟩
  else ⟨ResourceStatus.evaluated, none, []⟩

/-- C10: `destroy` clears the destroyed node's own dependents set but leaves
every other node untouched — in particular it never removes the node from its
dependencies' dependents sets, which are only added to at construction.
Consequently a later invalidation of a dependency `d` of the destroyed node
`n` (from an invalidatable status) reaches `n` during propagation and throws:
the whole `markStale` call fails with the destroyed-resource error whenever it
does not run out of the model's fuel first. -/
theorem destroy_keeps_reverse_edges_so_invalidation_throws
    (g : Graph) (n d : Nat) (fuel : Nat) (chain : List Nat)
    (hdn : d ≠ n)
    (hedge : n ∈ (g d).dependents)
    (hst : invalidatable (g d).status)
    (hnof : markStaleG fuel (destroyNodeG g n) chain d ≠
      Except.error PropErr.outOfFuel) :
    (∀ j, j ≠ n → destroyNodeG g n j = g j) ∧
    (destroyNodeG g n n).dependents = [] ∧
    markStaleG fuel (destroyNodeG g n) chain d =
      Except.error PropErr.destroyedResource := by
  have hgd : destroyNodeG g n d = g d := by simp [destroyNodeG, updateG, hdn]
  have hgn : (destroyNodeG g n n).status = ResourceStatus.destroyed := by
    simp [destroyNodeG, updateG]
  refine ⟨?_, ?_, ?_⟩
  · intro j hj
    simp [destroyNodeG, updateG, hj]
  · simp [destroyNodeG, updateG]
  · cases fuel with
    | zero => exact absurd rfl hnof
    | succ fuel =>
      have hne : n ≠ d := fun h => hdn h.symm
      have hg1n : ((updateG (destroyNodeG g n) d (writeStale (destroyNodeG g n d))) n).status
          = ResourceStatus.destroyed := by
        rw [show (updateG (destroyNodeG g n) d (writeStale (destroyNodeG g n d))) n
            = destroyNodeG g n n by simp [updateG, hne]]
        exact hgn
      rcases hst with h1 | h1 | h1 <;>
      · rw [← hgd] at h1
        simp only [markStaleG, markStaleRun, h1]
        cases hrec : markStaleRun fuel
            (updateG (destroyNodeG g n) d (writeStale (destroyNodeG g n d)))
            (StaleCall.many (chain ++ [d]) ((destroyNodeG g n d).dependents)) with
        | ok r =>
          exact absurd hrec
            (markStaleRun_many_destroyed fuel _ _ _ n r (by rw [hgd]; exact hedge) hg1n)
        | error e =>
          cases e with
          | outOfFuel =>
            exfalso
            apply hnof
            simp only [markStaleG, markStaleRun, h1, hrec]
          | destroyedResource => simp [hrec]

/-- Concrete witness data for C10. -/
theorem destroy_keeps_reverse_edges_witness :
    markStaleG 5 (destroyNodeG c10Graph 1) [] 0 =
      Except.error PropErr.destroyedResource ∧
    (destroyNodeG c10Graph 1 1).dependents = [] := by
  have happ := destroy_keeps_reverse_edges_so_invalidation_throws c10Graph 1 0 5 []
    (by decide) (by decide) (Or.inl rfl)
    (by rw [show markStaleG 5 (destroyNodeG c10Graph 1) [] 0 =
      Except.error PropErr.destroyedResource from rfl]; simp)
  exact ⟨happ.2.2, happ.2.1⟩

/-- A pure evaluator used in the destroyed-node scenario. -/
def c5Ev : List (Nat × Nat) → Except EvalError (EvaluationResult Nat) :=
  fun _ => Except.ok ⟨0, none⟩

/-- A node that completed a successful evaluation cycle: status `evaluated`,
cached settled promise holding value 42, stored teardown hook 7. -/
def c5Evaluated : NodeState Nat :=
  ⟨ResourceStatus.evaluated, none, [],
    some (PromiseVal.settled (Except.ok ⟨42, some 7⟩)), some 7, []⟩

/-- The node after `destroy()`. -/
def c5Destroyed : NodeState Nat := (destroyOp c5Evaluated).1

/-- A node destroyed before ever being evaluated (no cached promise). -/
def c5FreshDestroyed : NodeState Nat :=
  ⟨ResourceStatus.destroyed, none, [], none, none, []⟩

/-- C5: the teardown-once half of the claim holds — `destroy()` runs the
stored hook exactly once, and a second `destroy()` runs no hook — and
`markStale` on a destroyed node does throw.  But the evaluation half fails on
the code: `evaluate()` on a destroyed node that has a cached promise falls
through the status `switch` (which has no `destroyed` case) and resolves the
previously cached value with no error and no evaluator invocation, and
`evaluate()` on a destroyed node without a cached promise hangs forever
(the destroyed-guard `throw` happens inside an `async` promise executor, so
the promise never settles), instead of failing with a lifecycle error. -/
theorem destroyed_evaluate_returns_cached_value :
    (destroyOp c5Evaluated).2 = [CycleEvent.runTeardownHook 7] ∧
    (destroyOp c5Destroyed).2 = [] ∧
    c5Destroyed.status = ResourceStatus.destroyed ∧
    (evaluate c5Ev [] 9 c5Destroyed).outcome = EvalOutcome.ok ⟨42, some 7⟩ ∧
    (evaluate c5Ev [] 9 c5Destroyed).invocations = 0 ∧
    (evaluate c5Ev [] 9 c5FreshDestroyed).outcome = EvalOutcome.hang ∧
    markStaleSelf c5Destroyed = Except.error () :=
  ⟨rfl, rfl, rfl, rfl, rfl, rfl, rfl⟩

/-- C9: in an evaluation cycle on a node holding a teardown hook stored by the
previous successful cycle, the cycle's event order is exactly dependency
resolution, then the stored teardown hook, then the evaluator, then storing
the evaluator's returned hook — so the pending teardown hook runs after
dependency resolution and before the evaluator is invoked, and the
evaluator's optional new hook replaces the stored one (with an evaluator
returning no hook leaving the node without one). -/
theorem teardown_runs_after_deps_before_evaluator {A V : Type}
    (ev : List (Nat × V) → Except EvalError (EvaluationResult A))
    (dr : List (Nat × Except EvalError V)) (fuel : Nat) (s : NodeState A)
    (h : Nat) (deps : List (Nat × V)) (result : EvaluationResult A)
    (errored1 notified : List Nat)
    (hhook : s.onTeardownCallback = some h)
    (hnd : s.status ≠ ResourceStatus.destroyed)
    (hdeps : evalDepsLoop s.errorables [] s.erroredDependencies [] dr =
      (Except.ok deps, errored1, notified))
    (hev : ev deps = Except.ok result) :
    (createEvaluationPromise ev dr (fuel + 1) s).trace =
      [CycleEvent.resolveDeps, CycleEvent.runTeardownHook h,
        CycleEvent.runEvaluator, CycleEvent.storeHook result.onTeardown] ∧
    (createEvaluationPromise ev dr (fuel + 1) s).state.onTeardownCallback =
      result.onTeardown ∧
    (result.onTeardown = none →
      (createEvaluationPromise ev dr (fuel + 1) s).state.onTeardownCallback = none) := by
  rw [createEvaluationPromise_ok ev dr fuel s deps result errored1 notified hnd hdeps hev]
  refine ⟨?_, ?_, ?_⟩
  · simp [teardownTrace, hhook]
  · simp [setStatus]
  · intro hnone
    simp [setStatus, hnone]

/-- Witness for C9: a node carrying hook 3 from its previous cycle, an
evaluator returning hook 4. -/
theorem teardown_order_witness :
    (createEvaluationPromise
        (fun (_ : List (Nat × Nat)) => Except.ok (EvaluationResult.mk 2 (some 4)))
        [] 1
        (⟨ResourceStatus.stale, none, [],
          some (PromiseVal.settled (Except.ok ⟨1, some 3⟩)), some 3, []⟩ : NodeState Nat)).trace =
      [CycleEvent.resolveDeps, CycleEvent.runTeardownHook 3,
        CycleEvent.runEvaluator, CycleEvent.storeHook (some 4)] :=
  (teardown_runs_after_deps_before_evaluator
    (fun _ => Except.ok (EvaluationResult.mk 2 (some 4))) [] 0
    (⟨ResourceStatus.stale, none, [],
      some (PromiseVal.settled (Except.ok ⟨1, some 3⟩)), some 3, []⟩ : NodeState Nat)
    3 [] ⟨2, some 4⟩ [] [] rfl (by decide) rfl rfl).1

/-- C8: the stored-error invariant.  The invariant `error present iff status
errored` holds of a fresh node and is preserved by every operation of the
model: `evaluate` (any fuel, any dependency outcomes), `markStale` on the
node, and `destroy`.  Every status-setter transition to a non-`errored`
status clears the stored error, and whenever the status is `errored` and a
computation is cached, the stored wrapped error exists and is exactly what
the next `evaluate()` call throws. -/
theorem stored_error_iff_errored {A V : Type}
    (ev : List (Nat × V) → Except EvalError (EvaluationResult A))
    (dr : List (Nat × Except EvalError V)) (fuel : Nat) (s : NodeState A)
    (hinv : errInvariant s) :
    errInvariant freshNode ∧
    errInvariant (evaluate ev dr fuel s).state ∧
    (∀ s2, markStaleSelf s = Except.ok s2 → errInvariant s2) ∧
    errInvariant (destroyOp s).1 ∧
    (∀ (st : ResourceStatus), st ≠ ResourceStatus.errored →
      (setStatus s st).error = none ∧ (setStatus s st).status = st) ∧
    (s.status = ResourceStatus.errored → ∀ p, s.evaluationPromise = some p →
      ∃ e, s.error = some e ∧
        (evaluate ev dr fuel s).outcome = EvalOutcome.err e ∧
        (evaluate ev dr fuel s).state = s) := by
  refine ⟨by simp [errInvariant, freshNode], evaluate_errInv ev dr fuel s hinv,
    ?_, ?_, ?_, ?_⟩
  · intro s2 hm
    cases hst : s.status <;> simp [markStaleSelf, hst] at hm <;>
      first
        | (subst hm; simpa [errInvariant, hst] using hinv)
        | (subst hm; simp [errInvariant, setStatus])
  · simp [errInvariant, destroyOp, setStatus]
  · intro st hne
    simp [setStatus, hne]
  · intro hst p hp
    have hsome : s.error.isSome := hinv.mp hst
    obtain ⟨e, he⟩ := Option.isSome_iff_exists.mp hsome
    have hda : dispatchAction s.evaluationPromise s.status = DispatchAction.throwStored := by
      rw [hp, hst]
      rfl
    exact ⟨e, he, by simp [evaluate, hda, he], by simp [evaluate, hda, he]⟩

/-- Witness for C8 at a concrete errored node with a cached rejected
promise. -/
theorem stored_error_iff_errored_witness :
    errInvariant
      (evaluate c5Ev [] 3
        (⟨ResourceStatus.errored, some (EvalError.wrapped (EvalError.raw 1)), [],
          some (PromiseVal.settled (Except.error (EvalError.raw 1))), none, []⟩ :
            NodeState Nat)).state ∧
    (evaluate c5Ev [] 3
        (⟨ResourceStatus.errored, some (EvalError.wrapped (EvalError.raw 1)), [],
          some (PromiseVal.settled (Except.error (EvalError.raw 1))), none, []⟩ :
            NodeState Nat)).outcome =
      EvalOutcome.err (EvalError.wrapped (EvalError.raw 1)) := by
  have happ := stored_error_iff_errored c5Ev [] 3
    (⟨ResourceStatus.errored, some (EvalError.wrapped (EvalError.raw 1)), [],
      some (PromiseVal.settled (Except.error (EvalError.raw 1))), none, []⟩ : NodeState Nat)
    (by simp [errInvariant])
  have hthrow := happ.2.2.2.2.2 rfl (PromiseVal.settled (Except.error (EvalError.raw 1))) rfl
  obtain ⟨e, he, hout, _⟩ := hthrow
  have he2 : e = EvalError.wrapped (EvalError.raw 1) := by
    simpa using he.symm
  exact ⟨happ.2.1, by rw [hout, he2]⟩

/-- C2 (amended): when a dependency whose key is neither in `errorables` nor
already recorded in `erroredDependencies` fails, the cycle aborts before the
evaluator is invoked: zero evaluator invocations, the caller gets the wrapped
failure, the node ends `errored` storing that wrapped error, and every
subsequent `evaluate()` throws the same stored wrapped error without running
anything.  (The original claim extended this to repeated failures of the same
key after invalidation; the counterexample theorem shows the code instead
skips a key already in `erroredDependencies` and invokes the evaluator.) -/
theorem nonErrorable_dependency_failure_aborts_cycle {A V : Type}
    (ev : List (Nat × V) → Except EvalError (EvaluationResult A))
    (dr : List (Nat × Except EvalError V)) (fuel : Nat) (s : NodeState A)
    (k : Nat) (e : EvalError)
    (hda : dispatchAction s.evaluationPromise s.status = DispatchAction.startNewCycle)
    (hnd : s.status ≠ ResourceStatus.destroyed)
    (hmem : (k, Except.error e) ∈ dr)
    (hk1 : k ∉ s.erroredDependencies)
    (hk2 : k ∉ s.errorables)
    (hnodup : (dr.map Prod.fst).Nodup) :
    ∃ e2,
      (evaluate ev dr (fuel + 1) s).outcome = EvalOutcome.err (EvalError.wrapped e2) ∧
      (evaluate ev dr (fuel + 1) s).invocations = 0 ∧
      (evaluate ev dr (fuel + 1) s).state.status = ResourceStatus.errored ∧
      (evaluate ev dr (fuel + 1) s).state.error = some (EvalError.wrapped e2) ∧
      (∀ (ev2 : List (Nat × V) → Except EvalError (EvaluationResult A)) dr2 fuel2,
        (evaluate ev2 dr2 fuel2 (evaluate ev dr (fuel + 1) s).state).outcome =
          EvalOutcome.err (EvalError.wrapped e2) ∧
        (evaluate ev2 dr2 fuel2 (evaluate ev dr (fuel + 1) s).state).invocations = 0) := by
  obtain ⟨e2, errored2, notified2, hloop⟩ :=
    evalDepsLoop_aborts s.errorables dr [] s.erroredDependencies [] k e hmem hk1 hnodup hk2
  have hcyc := createEvaluationPromise_deps_error ev dr fuel s e2 errored2 notified2 hnd hloop
  refine ⟨e2, ?_, ?_, ?_, ?_, ?_⟩
  · simp [evaluate, hda, hcyc]
  · simp [evaluate, hda, hcyc]
  · simp [evaluate, hda, hcyc, setStatus]
  · simp [evaluate, hda, hcyc, setStatus]
  · intro ev2 dr2 fuel2
    have hstate : (evaluate ev dr (fuel + 1) s).state =
        { status := ResourceStatus.errored, error := some (EvalError.wrapped e2),
          erroredDependencies := errored2,
          evaluationPromise := some (PromiseVal.settled (Except.error e2)),
          onTeardownCallback := s.onTeardownCallback,
          errorables := s.errorables } := by
      simp [evaluate, hda, hcyc, setStatus]
    rw [hstate]
    constructor <;> simp [evaluate, dispatchAction]

/-- Witness for C2: one non-errorable dependency (key 3) failing for the
first time on a fresh node. -/
theorem nonErrorable_failure_witness :
    ∃ e2,
      (evaluate c5Ev [(3, Except.error (EvalError.raw 5))] 9 freshNode).outcome =
        EvalOutcome.err (EvalError.wrapped e2) ∧
      (evaluate c5Ev [(3, Except.error (EvalError.raw 5))] 9 freshNode).invocations = 0 ∧
      (evaluate c5Ev [(3, Except.error (EvalError.raw 5))] 9 freshNode).state.status =
        ResourceStatus.errored := by
  obtain ⟨e2, h1, h2, h3, _⟩ :=
    nonErrorable_dependency_failure_aborts_cycle c5Ev
      [(3, Except.error (EvalError.raw 5))] 8 freshNode 3 (EvalError.raw 5)
      rfl (by decide) (by simp) (by simp [freshNode]) (by simp [freshNode]) (by simp)
  exact ⟨e2, h1, h2, h3⟩

/-- The evaluator of the C2 counterexample scenario returns the dependency
map it received, so the resolved value records what the evaluator saw. -/
def c2Ev : List (Nat × Nat) → Except EvalError (EvaluationResult (List (Nat × Nat))) :=
  fun deps => Except.ok ⟨deps, none⟩

/-- A fresh node with one (non-errorable) dependency under key 3. -/
def c2Node : NodeState (List (Nat × Nat)) :=
  ⟨ResourceStatus.unevaluated, none, [], none, none, []⟩

/-- The dependency at key 3 always fails with the same reason. -/
def c2Dr : List (Nat × Except EvalError Nat) := [(3, Except.error (EvalError.raw 5))]

/-- First evaluation: the failure propagates and the node errors. -/
def c2First : EvalRet (List (Nat × Nat)) Nat := evaluate c2Ev c2Dr 9 c2Node

/-- The node after `markStale()` (invalidation) following the first failed
cycle. -/
def c2AfterStale : NodeState (List (Nat × Nat)) :=
  match markStaleSelf c2First.state with
  | Except.ok s => s
  | Except.error _ => c2First.state

/-- Second evaluation after invalidation, with the dependency failing again
with the same reason. -/
def c2Second : EvalRet (List (Nat × Nat)) Nat := evaluate c2Ev c2Dr 9 c2AfterStale

/-- Counterexample to C2 as stated: after the node was invalidated and
re-evaluated, a repeated failure of the same dependency key 3 does NOT abort
the cycle.  Key 3 is still in `erroredDependencies`, so the loop skips it:
the evaluator IS invoked (once, receiving an empty dependency map) and the
cycle succeeds with status `evaluated` — where the claim requires the cycle
to abort before the evaluator with the node ending `errored`. -/
theorem repeated_dependency_failure_not_aborted :
    c2First.outcome = EvalOutcome.err (EvalError.wrapped (EvalError.raw 5)) ∧
    c2First.invocations = 0 ∧
    c2First.state.erroredDependencies = [3] ∧
    markStaleSelf c2First.state = Except.ok c2AfterStale ∧
    c2AfterStale.status = ResourceStatus.stale ∧
    c2Second.outcome = EvalOutcome.ok ⟨[], none⟩ ∧
    c2Second.invocations = 1 ∧
    c2Second.state.status = ResourceStatus.evaluated :=
  ⟨rfl, rfl, rfl, rfl, rfl, rfl, rfl, rfl⟩

/-- C3 (amended): when, during the evaluator's suspension, another actor set
the node's status to `uninitialized` or `stale` (invalidation), the freshly
computed value of that round is discarded and a new cycle starts recursively,
so the value an `evaluate()` caller receives is always the value of the first
round whose observed status did not take the restart branch — no call
resolves with a value the engine saw to be stale at resolution time.  The
`#continuousEvaluationCount` counter increments on each consecutive restart
and the non-fatal `console.warn` fires exactly once per restart beyond the
default threshold `MAX_CONTINUOUS_EVALUATION_COUNT = 2`, i.e. `j - 2` times
for `j` consecutive restarts.  (The original claim quantified over every
status change away from `evaluating`; the counterexample theorem shows a
change to `errored` is resolved, not discarded.) -/
theorem stale_during_evaluation_restarts_cycle (rounds : List (CycleRound Nat))
    (j : Nat) (hj : firstNonRestart rounds = some j) :
    ∃ r o, rounds.get? j = some r ∧ runCycle rounds 0 = some o ∧
      o.value = r.value ∧ roundRestarts r = false ∧
      o.warnings = j - MAX_CONTINUOUS_EVALUATION_COUNT := by
  obtain ⟨r, o, hget, hrun, hval, hnr, hw⟩ := runCycle_resolves rounds 0 j hj
  exact ⟨r, o, hget, hrun, hval, hnr, by simpa using hw⟩

/-- Witness for C3: a schedule whose first round is invalidated mid-flight
and whose second round completes, resolving the second round's value. -/
theorem stale_restart_witness :
    ∃ r o,
      ([⟨5, some ResourceNodeStatus.stale⟩, ⟨7, none⟩] :
          List (CycleRound Nat)).get? 1 = some r ∧
      runCycle [⟨5, some ResourceNodeStatus.stale⟩, ⟨7, none⟩] 0 = some o ∧
      o.value = r.value ∧ roundRestarts r = false ∧
      o.warnings = 1 - MAX_CONTINUOUS_EVALUATION_COUNT :=
  stale_during_evaluation_restarts_cycle
    [⟨5, some ResourceNodeStatus.stale⟩, ⟨7, none⟩] 1 rfl

/-- Counterexample to C3 as stated: a round during which the status changed
away from `loading` — to `errored` — is NOT discarded: the race-check's
`errored` branch writes `ready` and resolves that very round's freshly
computed value 3 with no restart (the second scheduled round is never
consumed) and no warning. -/
theorem errored_during_evaluation_not_discarded :
    runCycle ([⟨3, some ResourceNodeStatus.errored⟩, ⟨9, none⟩] :
        List (CycleRound Nat)) 0 =
      some ⟨3, ResourceNodeStatus.ready, 0, 0⟩ ∧
    ResourceNodeStatus.errored ≠ ResourceNodeStatus.loading :=
  ⟨rfl, by decide⟩

/-- Evaluator of node B in the errorable scenario: returns the dependency map
it received, so the resolved value records exactly what the evaluator saw. -/
def c4Ev : List (Nat × Nat) → Except EvalError (EvaluationResult (List (Nat × Nat))) :=
  fun deps => Except.ok ⟨deps, none⟩

/-- Node B: one dependency under key 3, declared errorable
(`options.errorables = [3]`). -/
def c4Node : NodeState (List (Nat × Nat)) :=
  ⟨ResourceStatus.unevaluated, none, [], none, none, [3]⟩

/-- Dependency outcomes for a cycle in which the dependency at key 3 fails. -/
def c4DrFail (e : Nat) : List (Nat × Except EvalError Nat) :=
  [(3, Except.error (EvalError.raw e))]

/-- Dependency outcomes for a cycle in which the dependency at key 3
fulfills with value `v`. -/
def c4DrOk (v : Nat) : List (Nat × Except EvalError Nat) := [(3, Except.ok v)]

/-- First evaluation of B, with the errorable dependency failing. -/
def c4First (e : Nat) : EvalRet (List (Nat × Nat)) Nat :=
  evaluate c4Ev (c4DrFail e) 9 c4Node

/-- B after invalidation following the first cycle. -/
def c4S1 (e : Nat) : NodeState (List (Nat × Nat)) :=
  match markStaleSelf (c4First e).state with
  | Except.ok s => s
  | Except.error _ => (c4First e).state

/-- Second evaluation: the same key fails again (consecutive repeat). -/
def c4Second (e : Nat) : EvalRet (List (Nat × Nat)) Nat :=
  evaluate c4Ev (c4DrFail e) 9 (c4S1 e)

/-- B after invalidation following the second cycle. -/
def c4S2 (e : Nat) : NodeState (List (Nat × Nat)) :=
  match markStaleSelf (c4Second e).state with
  | Except.ok s => s
  | Except.error _ => (c4Second e).state

/-- Third evaluation: the dependency recovers (fulfills with `v`). -/
def c4Third (e v : Nat) : EvalRet (List (Nat × Nat)) Nat :=
  evaluate c4Ev (c4DrOk v) 9 (c4S2 e)

/-- B after invalidation following the third cycle. -/
def c4S3 (e v : Nat) : NodeState (List (Nat × Nat)) :=
  match markStaleSelf (c4Third e v).state with
  | Except.ok s => s
  | Except.error _ => (c4Third e v).state

/-- Fourth evaluation: the dependency fails again after having recovered. -/
def c4Fourth (e v e2 : Nat) : EvalRet (List (Nat × Nat)) Nat :=
  evaluate c4Ev (c4DrFail e2) 9 (c4S3 e v)

/-- C4: with dependency key 3 declared errorable and the dependency failing,
`evaluate(B)` still succeeds and B's evaluator receives a dependency map with
key 3 absent, and the error-tolerance notification fires for key 3; on the
consecutive repeat failure of the same key the notification is suppressed
(and the evaluation still succeeds with the key absent); after the key
recovers once (fulfilled, removing it from `erroredDependencies`), a new
failure of the key notifies again. -/
theorem errorable_failure_tolerated_and_notified (e v e2 : Nat) :
    (c4First e).outcome = EvalOutcome.ok ⟨[], none⟩ ∧
    (c4First e).notified = [3] ∧
    (c4First e).state.status = ResourceStatus.evaluated ∧
    (c4Second e).outcome = EvalOutcome.ok ⟨[], none⟩ ∧
    (c4Second e).notified = [] ∧
    (c4Third e v).outcome = EvalOutcome.ok ⟨[(3, v)], none⟩ ∧
    (c4Third e v).notified = [] ∧
    (c4Third e v).state.erroredDependencies = [] ∧
    (c4Fourth e v e2).outcome = EvalOutcome.ok ⟨[], none⟩ ∧
    (c4Fourth e v e2).notified = [3] :=
  ⟨rfl, rfl, rfl, rfl, rfl, rfl, rfl, rfl, rfl, rfl⟩

theorem invalidateRun_one_events (fuel : Nat) (g : GraphV2) (chain : List Nat)
    (i : Nat) (g2 : GraphV2) (evs : List (Nat × List Nat))
    (hinv : invalidatableV2 (g i).status)
    (hok : invalidateRun fuel g (InvCall.one chain i) = Except.ok (g2, evs)) :
    evs.head? = some (i, chain) := by
  cases fuel with
  | zero => simp [invalidateRun] at hok
  | succ fuel =>
    rcases hinv with hst | hst | hst <;>
    · simp only [invalidateRun, hst] at hok
      split at hok
      case isTrue =>
        cases hrec : invalidateRun fuel
            (updateG2 g i (writeInvalidated (g i) (chain ++ [i])))
            (InvCall.many (chain ++ [i]) ((g i).dependents)) with
        | ok r =>
          obtain ⟨g3, evs3⟩ := r
          simp [hrec] at hok
          obtain ⟨_, hevs⟩ := hok
          rw [← hevs]
          rfl
        | error e => simp [hrec] at hok
      case isFalse =>
        simp at hok
        obtain ⟨_, hevs⟩ := hok
        rw [← hevs]
        rfl

/-- C6: the transition rules of `invalidate`.  From `unevaluated` or
already-`invalidated` the call is a complete no-op: graph unchanged, no
observer events.  From `evaluated`, `evaluating` or `errored` (on any
successful run) the node's status becomes `invalidated`, its
`recentCallChain` records the incoming causal chain with the node appended,
and the `triggerOnInvalidated` observer event for the node (with the incoming
chain) fires first.  With `dependentsInvalidatedWhen = "reevaluated"` the
call returns after writing only the node itself (propagation deferred), and
the deferred propagation performed by the `finally` block of the node's next
evaluation cycle invalidates every dependent that is in an invalidatable or
already-invalidated status; with the default `"invalidated"` timing the same
holds for the invalidating call itself, synchronously. -/
theorem invalidate_transition_rules (fuel : Nat) (g : GraphV2) (chain : List Nat)
    (i : Nat) :
    ((g i).status = StatusV2.unevaluated ∨ (g i).status = StatusV2.invalidated →
      invalidateG (fuel + 1) g chain i = Except.ok (g, [])) ∧
    (invalidatableV2 (g i).status →
      ∀ g2 evs, invalidateG fuel g chain i = Except.ok (g2, evs) →
        (g2 i).status = StatusV2.invalidated ∧
        (g2 i).recentCallChain = chain ++ [i] ∧
        evs.head? = some (i, chain)) ∧
    (invalidatableV2 (g i).status →
      (g i).dependentsInvalidatedWhen = InvWhen.reevaluated →
      invalidateG (fuel + 1) g chain i =
        Except.ok (updateG2 g i (writeInvalidated (g i) (chain ++ [i])),
          [(i, chain)])) ∧
    (invalidatableV2 (g i).status →
      (g i).dependentsInvalidatedWhen = InvWhen.invalidated →
      ∀ g2 evs, invalidateG fuel g chain i = Except.ok (g2, evs) →
        ∀ j, j ∈ (g i).dependents →
          invalidatableV2 (g j).status ∨ (g j).status = StatusV2.invalidated →
          (g2 j).status = StatusV2.invalidated) ∧
    ((g i).dependentsInvalidatedWhen = InvWhen.reevaluated →
      ∀ g2 evs, evaluationFinallyV2 fuel g i = Except.ok (g2, evs) →
        ∀ j, j ∈ (g i).dependents →
          invalidatableV2 (g j).status ∨ (g j).status = StatusV2.invalidated →
          (g2 j).status = StatusV2.invalidated) := by
  refine ⟨?_, ?_, ?_, ?_, ?_⟩
  · intro h
    rcases h with h | h <;> simp [invalidateG, invalidateRun, h]
  · intro hinv g2 evs hok
    have hw := invalidateRun_one_writes_node fuel g chain i g2 evs hinv hok
    exact ⟨by rw [hw]; rfl, by rw [hw]; rfl,
      invalidateRun_one_events fuel g chain i g2 evs hinv hok⟩
  · intro hinv htime
    rcases hinv with h | h | h <;> simp [invalidateG, invalidateRun, h, htime]
  · intro hinv htime g2 evs hok j hj hjst
    cases fuel with
    | zero => simp [invalidateG, invalidateRun] at hok
    | succ fuel =>
      have hg1st : ∀ k, k ∈ (g i).dependents →
          invalidatableV2 (g k).status ∨ (g k).status = StatusV2.invalidated →
          invalidatableV2 ((updateG2 g i (writeInvalidated (g i) (chain ++ [i])) k).status) ∨
            (updateG2 g i (writeInvalidated (g i) (chain ++ [i])) k).status =
              StatusV2.invalidated := by
        intro k _ hk
        by_cases hki : k = i
        · subst hki
          exact Or.inr (by simp [updateG2, writeInvalidated])
        · rw [show updateG2 g i (writeInvalidated (g i) (chain ++ [i])) k = g k by
            simp [updateG2, hki]]
          exact hk
      rcases hinv with h | h | h <;>
      · simp only [invalidateG, invalidateRun, h, htime, if_pos] at hok
        cases hrec : invalidateRun fuel
            (updateG2 g i (writeInvalidated (g i) (chain ++ [i])))
            (InvCall.many (chain ++ [i]) ((g i).dependents)) with
        | ok r =>
          obtain ⟨g3, evs3⟩ := r
          simp [hrec] at hok
          obtain ⟨hg, _⟩ := hok
          subst hg
          exact invalidateRun_many_invalidates fuel _ _ _ _ _ hrec j hj
            (hg1st j hj hjst)
        | error e => simp [hrec] at hok
  · intro htime g2 evs hok j hj hjst
    rw [evaluationFinallyV2, if_pos htime] at hok
    exact invalidateRun_many_invalidates fuel _ _ _ _ _ hok j hj hjst

/-- Concrete graph for the C6 witness: node 0 evaluated with deferred
propagation timing and dependent 1; node 5 unevaluated. -/
def c6Graph : GraphV2 := fun i =>
  if i = 0 then ⟨StatusV2.evaluated, none, [1], InvWhen.reevaluated, []⟩
  else if i = 1 then ⟨StatusV2.evaluated, none, [], InvWhen.invalidated, []⟩
  else ⟨StatusV2.unevaluated, none, [], InvWhen.invalidated, []⟩

/-- Witness for C6: the no-op on an unevaluated node and the
write-only-the-node behaviour of deferred timing, at concrete inputs. -/
theorem invalidate_transition_rules_witness :
    invalidateG 5 c6Graph [] 5 = Except.ok (c6Graph, []) ∧
    invalidateG 5 c6Graph [] 0 =
      Except.ok (updateG2 c6Graph 0 (writeInvalidated (c6Graph 0) ([] ++ [0])),
        [(0, [])]) :=
  ⟨(invalidate_transition_rules 4 c6Graph [] 5).1 (Or.inl rfl),
    (invalidate_transition_rules 4 c6Graph [] 0).2.2.1 (Or.inl rfl) rfl⟩
